import Mathlib

/-!
Shallow embedding of the FluxAI policy/budget firewall core:
the policy evaluator (`src/lib/policy-engine.ts`), the usage ledger
(`src/lib/database.ts`), the cost estimator (`src/lib/cost-estimator.ts`)
and the router (`src/tools/check-and-route.ts`).

Conventions of the embedding:
- USD amounts (costs, limits, totals) are rationals (`ℚ`); the JS float
  `Infinity` that the evaluator uses for "unbounded limit" is modelled as
  `none` in an `Option ℚ`.
- Instants are minutes since the Unix epoch (`ℤ`).  A `Clock` carries the
  current instant (`now`) and the timezone offset `tz` in minutes with
  `local time = now + tz`; the JS mutators `setHours(0,0,0,0)` and
  `setDate(1)` act on the local broken-down time, which is modelled with
  floor division by 1440 and a civil-calendar conversion.
- The SQL DATE values stored in `usage_aggregates.period_start` are epoch
  day numbers (`ℤ`); `dateOfInstant` is the Postgres cast of a timestamp
  to a DATE (truncation to the UTC calendar day).
- A supabase query that can fail softly (returning `{ data: null, error }`)
  is modelled with `Except Unit`; promise rejections (hard failures) inside
  the router are modelled by the `Faults` flags that make
  `checkAndRouteCore` return `Except.error`, with `checkAndRoute` the
  catch-all boundary of the source.
-/

namespace FluxAI

/-! ## Enumerations of the data model -/

inductive Plan : Type
  | free | pro | enterprise
deriving DecidableEq

inductive Tier : Type
  | cheap | standard | premium
deriving DecidableEq

inductive Scope : Type
  | tenant | user | tool
deriving DecidableEq

/-- String stored in the VARCHAR `scope` column; the query
`order('scope', { ascending: false })` sorts by this string. -/
def Scope.str : Scope → String
  | .tenant => "tenant"
  | .user => "user"
  | .tool => "tool"

inductive LimitType : Type
  | daily | monthly | per_request
deriving DecidableEq

def LimitType.str : LimitType → String
  | .daily => "daily"
  | .monthly => "monthly"
  | .per_request => "per_request"

inductive PolicyDecision : Type
  | allow | deny | downgrade | require_approval
deriving DecidableEq

inductive EventDecision : Type
  | allowed | denied | downgraded
deriving DecidableEq

/-- The period argument of `getCurrentUsage` / `getPeriodStart`
(`'daily' | 'monthly'` in the source). -/
inductive PeriodKind : Type
  | daily | monthly
deriving DecidableEq

/-- The `period_type` column of `usage_aggregates` (`'day' | 'month'`). -/
inductive PeriodType : Type
  | day | month
deriving DecidableEq

/-- Translation `periodType === 'daily' ? 'day' : 'month'` used by
`getCurrentUsage` when querying the aggregates table. -/
def PeriodKind.db : PeriodKind → PeriodType
  | .daily => .day
  | .monthly => .month

/-! ## Records of the data model -/

structure Tenant where
  id : String
  plan : Plan
deriving DecidableEq

structure Tool where
  id : String
  category : String
  tier : Tier
  cost_per_unit : ℚ
deriving DecidableEq

structure Policy where
  tenant_id : String
  scope : Scope
  scope_id : Option String
  limit_type : LimitType
  limit_value : ℚ
  fallback_tool_id : Option String
  decision : PolicyDecision
deriving DecidableEq

structure UsageEvent where
  timestamp : ℤ
  tenant_id : String
  user_id : String
  tool_id : String
  units : ℚ
  cost_estimate : ℚ
  decision : EventDecision
deriving DecidableEq

structure AggRow where
  tenant_id : String
  user_id : String
  tool_id : String
  period_type : PeriodType
  period_start : ℤ
  total_units : ℚ
  total_cost : ℚ
deriving DecidableEq

/-! ## Wall-clock time (`getPeriodStart`, `updateAggregates`) -/

/-- Current instant `now` (epoch minutes, UTC) and timezone offset `tz`
(minutes; local time = now + tz). -/
structure Clock where
  now : ℤ
  tz : ℤ
deriving DecidableEq

/-- JS `const d = new Date(now); d.setHours(0, 0, 0, 0)`: the instant whose
local time is midnight of the local day containing `t`. -/
def localDayStart (t o : ℤ) : ℤ := t - (t + o).emod 1440

/-- Civil date (year, month, day) of an epoch day number (proleptic
Gregorian calendar, the rule JS `Date` uses to split an instant into
local fields). -/
def civilFromDays (z0 : ℤ) : ℤ × ℤ × ℤ :=
  let z := z0 + 719468
  let era := z.ediv 146097
  let doe := z - era * 146097
  let yoe := (doe - doe.ediv 1460 + doe.ediv 36524 - doe.ediv 146096).ediv 365
  let y := yoe + era * 400
  let doy := doe - (365 * yoe + yoe.ediv 4 - yoe.ediv 100)
  let mp := (5 * doy + 2).ediv 153
  let d := doy - (153 * mp + 2).ediv 5 + 1
  let m := mp + (if mp < 10 then 3 else -9)
  (y + (if m ≤ 2 then 1 else 0), m, d)

/-- Epoch day number of a civil date, inverse direction of
`civilFromDays` (the rule JS `Date` uses to rebuild an instant from
local fields, e.g. in `new Date(year, month, 1)` / `setDate(1)`). -/
def daysFromCivil (y0 m d : ℤ) : ℤ :=
  let y := y0 - (if m ≤ 2 then 1 else 0)
  let era := y.ediv 400
  let yoe := y - era * 400
  let doy := (153 * (m + (if 2 < m then -3 else 9)) + 2).ediv 5 + d - 1
  let doe := yoe * 365 + yoe.ediv 4 - yoe.ediv 100 + doy
  era * 146097 + doe - 719468

/-- JS `d.setDate(1); d.setHours(0, 0, 0, 0)` (and equally
`new Date(y, m, 1)`): the instant whose local time is midnight of the
first day of the local month containing `t`. -/
def localMonthStart (t o : ℤ) : ℤ :=
  let ld := (t + o).ediv 1440
  let c := civilFromDays ld
  daysFromCivil c.1 c.2.1 1 * 1440 - o

/-- `PolicyEngine.getPeriodStart`: start of the current period, computed
from the wall clock with the local-time mutators of JS `Date`. -/
def Clock.periodStart (c : Clock) : PeriodKind → ℤ
  | .daily => localDayStart c.now c.tz
  | .monthly => localMonthStart c.now c.tz

/-- Postgres cast of a timestamp to the DATE column `period_start`:
the UTC calendar day containing the instant, as an epoch day number. -/
def dateOfInstant (t : ℤ) : ℤ := t.ediv 1440

/-! ## The backing store -/

/-- One request's view of the collaborator store.  `policiesFetch` is the
outcome of the `policies` select (`.error` models a returned store
error, which `getApplicablePolicies` turns into `[]`). -/
structure Store where
  tenants : List Tenant
  tools : List Tool
  policiesFetch : Except Unit (List Policy)
  aggregates : List AggRow
  events : List UsageEvent

/-- `.maybeSingle()`: one row gives the row, zero rows give null, and
two or more rows give an error whose data is also null. -/
def maybeSingle {α : Type} : List α → Option α
  | [x] => some x
  | _ => none

/-! ## PolicyEngine -/

/-- Row filter of the policies query: tenant matches, and the scope is
`tenant`, or `user` with `scope_id = userId`, or `tool` with
`scope_id = toolId`. -/
def policyApplies (tenantId userId toolId : String) (p : Policy) : Bool :=
  p.tenant_id == tenantId &&
    (p.scope == .tenant ||
      (p.scope == .user && p.scope_id == some userId) ||
      (p.scope == .tool && p.scope_id == some toolId))

/-- Stable insertion for descending order of the `scope` string. -/
def insertScopeDesc (p : Policy) : List Policy → List Policy
  | [] => [p]
  | q :: qs => if q.scope.str < p.scope.str then p :: q :: qs else q :: insertScopeDesc p qs

/-- `order('scope', { ascending: false })`: sort rows by the VARCHAR
`scope` value, descending. -/
def orderScopeDesc : List Policy → List Policy
  | [] => []
  | p :: ps => insertScopeDesc p (orderScopeDesc ps)

/-- `PolicyEngine.getApplicablePolicies`: on a store error it logs and
returns the empty list; otherwise it returns the applicable rows ordered
by `scope` descending. -/
def getApplicablePolicies (st : Store) (tenantId userId toolId : String) : List Policy :=
  match st.policiesFetch with
  | .error _ => []
  | .ok rows => orderScopeDesc (rows.filter (policyApplies tenantId userId toolId))

/-- `PolicyEngine.getCurrentUsage`: reads the aggregates table filtered by
tenant, period type and period start only (the `userId` and `toolId`
parameters are accepted but never used in the query, as in the source),
and falls back to summing the tenant's usage events since the period
start when no single aggregate row matches. -/
def getCurrentUsage (st : Store) (c : Clock) (tenantId userId toolId : String)
    (periodType : PeriodKind) : ℚ :=
  let periodStart := c.periodStart periodType
  let rows := st.aggregates.filter fun r =>
    r.tenant_id == tenantId && r.period_type == periodType.db &&
      r.period_start == dateOfInstant periodStart
  match maybeSingle rows with
  | some aggregate => aggregate.total_cost
  | none =>
    (st.events.filter fun e =>
        e.tenant_id == tenantId && decide (periodStart ≤ e.timestamp)).foldl
      (fun sum e => sum + e.cost_estimate) 0

/-- Counting window of a policy:
`policy.limit_type === 'per_request' ? 'daily' : policy.limit_type`. -/
def LimitType.window : LimitType → PeriodKind
  | .daily => .daily
  | .monthly => .monthly
  | .per_request => .daily

/-- Truthiness of `policy.fallback_tool_id` in the evaluator's
`else if (policy.decision === 'downgrade' && policy.fallback_tool_id)`
(null and the empty string are falsy). -/
def fallbackPresent : Option String → Bool
  | none => false
  | some s => !s.isEmpty

structure PolicyEvaluationResult where
  allowed : Bool
  reason : String
  suggested_tool : Option String
  current_usage : ℚ
  limit : Option ℚ
deriving DecidableEq

/-- The `for (const policy of policies)` loop of
`PolicyEngine.evaluateRequest`, with the trailing all-policies-passed
return.  `headLimit` is the `policies[0]?.limit_value || Infinity` value
of that return. -/
def evaluateLoop (usage : PeriodKind → ℚ) (estimatedCost : ℚ) (headLimit : Option ℚ) :
    List Policy → PolicyEvaluationResult
  | [] => ⟨true, "Within budget limits", none, usage .daily, headLimit⟩
  | policy :: rest =>
    let currentUsage := usage policy.limit_type.window
    if policy.limit_value < currentUsage + estimatedCost then
      match policy.decision with
      | .deny =>
        ⟨false, "Would exceed " ++ policy.limit_type.str ++ " limit of $" ++
          toString policy.limit_value, none, currentUsage, some policy.limit_value⟩
      | .downgrade =>
        match policy.fallback_tool_id with
        | some fb =>
          if fb.isEmpty then evaluateLoop usage estimatedCost headLimit rest
          else
            ⟨true, "Downgrading to " ++ fb ++ " due to budget limit", some fb,
              currentUsage, some policy.limit_value⟩
        | none => evaluateLoop usage estimatedCost headLimit rest
      | .require_approval =>
        ⟨false, "Requires manual approval due to budget limit", none, currentUsage,
          some policy.limit_value⟩
      | .allow => evaluateLoop usage estimatedCost headLimit rest
    else evaluateLoop usage estimatedCost headLimit rest

/-- `policies[0]?.limit_value || Infinity` (a stored limit of 0 is falsy
in JS and therefore also yields Infinity). -/
def headLimitOf : List Policy → Option ℚ
  | [] => none
  | p :: _ => if p.limit_value == 0 then none else some p.limit_value

/-- `PolicyEngine.evaluateRequest` on an already fetched policy list, with
the per-period usage read abstracted as `usage` (the source calls
`getCurrentUsage` with the fixed request key, so the read depends only on
the period kind). -/
def evaluateRequestWith (policies : List Policy) (usage : PeriodKind → ℚ)
    (estimatedCost : ℚ) : PolicyEvaluationResult :=
  match policies with
  | [] => ⟨true, "No policies defined, allowing by default", none, 0, none⟩
  | _ => evaluateLoop usage estimatedCost (headLimitOf policies) policies

/-- `PolicyEngine.evaluateRequest`. -/
def evaluateRequest (st : Store) (c : Clock) (tenantId userId toolId : String)
    (estimatedCost : ℚ) : PolicyEvaluationResult :=
  evaluateRequestWith (getApplicablePolicies st tenantId userId toolId)
    (fun pk => getCurrentUsage st c tenantId userId toolId pk) estimatedCost

/-- `PolicyEngine.isToolAllowedForPlan`: missing tenant or tool gives
false; a free plan may not use a premium tool; everything else is
allowed. -/
def isToolAllowedForPlan (st : Store) (tenantId toolId : String) : Bool :=
  match st.tenants.find? (fun t => t.id == tenantId),
      st.tools.find? (fun t => t.id == toolId) with
  | some tenant, some tool => !(tenant.plan == .free && tool.tier == .premium)
  | _, _ => false

/-- `order('cost_per_unit', { ascending: true }).limit(1)`: the first
tool of minimal cost per unit. -/
def minCostFirst : List Tool → Option Tool
  | [] => none
  | t :: ts =>
    match minCostFirst ts with
    | none => some t
    | some u => if t.cost_per_unit ≤ u.cost_per_unit then some t else some u

/-- `PolicyEngine.getSuggestedFallback`: the cheapest tool in the same
category as `toolId`, excluding `toolId` itself. -/
def getSuggestedFallback (st : Store) (toolId : String) : Option String :=
  match st.tools.find? (fun t => t.id == toolId) with
  | none => none
  | some tool =>
    (minCostFirst (st.tools.filter fun t =>
        t.category == tool.category && t.id != toolId)).map (fun t => t.id)

/-- `CostEstimator.estimateCost`. -/
def estimateCost (tool : Tool) (units : ℚ) : ℚ := tool.cost_per_unit * units

/-! ## DatabaseService (usage ledger) -/

/-- The five `.eq(...)` filters of `upsertAggregate` on the aggregates
table, i.e. membership of a row in the unique key
(tenant, user, tool, period type, period start). -/
def matchesKey (r : AggRow) (tenantId userId toolId : String) (pt : PeriodType)
    (ps : ℤ) : Bool :=
  r.tenant_id == tenantId && r.user_id == userId && r.tool_id == toolId &&
    r.period_type == pt && r.period_start == ps

/-- First half of `DatabaseService.upsertAggregate`: the
`select ... .maybeSingle()` that checks whether the aggregate row
exists. -/
def upsertRead (rows : List AggRow) (tenantId userId toolId : String)
    (pt : PeriodType) (ps : ℤ) : Option AggRow :=
  maybeSingle (rows.filter (matchesKey · tenantId userId toolId pt ps))

/-- Second half of `DatabaseService.upsertAggregate`: the write issued for
a previously read `existing` row.  A found row triggers an `update` whose
new totals are computed from the read copy; a missing row triggers an
`insert`, which the UNIQUE key of the schema rejects (and the source
ignores the rejection) when a row for the key meanwhile exists. -/
def upsertWrite (rows : List AggRow) (tenantId userId toolId : String)
    (pt : PeriodType) (ps : ℤ) (existing : Option AggRow) (cost units : ℚ) :
    List AggRow :=
  match existing with
  | some ex =>
    rows.map fun r =>
      if matchesKey r tenantId userId toolId pt ps then
        { r with total_cost := ex.total_cost + cost, total_units := ex.total_units + units }
      else r
  | none =>
    if (rows.filter (matchesKey · tenantId userId toolId pt ps)).isEmpty then
      rows ++ [⟨tenantId, userId, toolId, pt, ps, units, cost⟩]
    else rows

/-- `DatabaseService.upsertAggregate`: a read followed by a write. -/
def upsertAggregate (rows : List AggRow) (tenantId userId toolId : String)
    (pt : PeriodType) (ps : ℤ) (cost units : ℚ) : List AggRow :=
  upsertWrite rows tenantId userId toolId pt ps
    (upsertRead rows tenantId userId toolId pt ps) cost units

/-- Period start DATE written by `updateAggregates`
(`dayStart.toISOString().split('T')[0]` and the monthly analogue). -/
def eventPeriodStart (c : Clock) : PeriodType → ℤ
  | .day => dateOfInstant (localDayStart c.now c.tz)
  | .month => dateOfInstant (localMonthStart c.now c.tz)

/-- `DatabaseService.updateAggregates`: upsert the daily aggregate, then
the monthly aggregate, both bucketed at the current wall-clock time. -/
def updateAggregates (rows : List AggRow) (c : Clock) (tenantId userId toolId : String)
    (cost units : ℚ) : List AggRow :=
  let dayRows := upsertAggregate rows tenantId userId toolId .day
    (eventPeriodStart c .day) cost units
  upsertAggregate dayRows tenantId userId toolId .month
    (eventPeriodStart c .month) cost units

/-- Aggregate-table effect of `DatabaseService.recordUsage` for one
event. -/
def recordAggs (rows : List AggRow) (c : Clock) (e : UsageEvent) : List AggRow :=
  updateAggregates rows c e.tenant_id e.user_id e.tool_id e.cost_estimate e.units

/-- `DatabaseService.recordUsage`: append the immutable event, then update
the two aggregates. -/
def recordUsage (st : Store) (c : Clock) (e : UsageEvent) : Store :=
  { st with
    events := st.events ++ [e],
    aggregates := recordAggs st.aggregates c e }

/-- Total cost stored for one aggregate key (sum over the matching rows;
with the UNIQUE key of the schema at most one row matches). -/
def aggTotalCost (rows : List AggRow) (tenantId userId toolId : String)
    (pt : PeriodType) (ps : ℤ) : ℚ :=
  ((rows.filter (matchesKey · tenantId userId toolId pt ps)).map AggRow.total_cost).sum

/-- Sequential ledger: record a list of timestamped events one after the
other. -/
def runLedger : List (Clock × UsageEvent) → List AggRow → List AggRow
  | [], rows => rows
  | (c, e) :: rest, rows => runLedger rest (recordAggs rows c e)

/-- `DatabaseService.getTool` (null on error or missing row). -/
def dbGetTool (st : Store) (toolId : String) : Option Tool :=
  st.tools.find? (fun t => t.id == toolId)

/-! ## Router (`checkAndRoute`) -/

inductive RouteDecision : Type
  | allowed | denied | downgraded
deriving DecidableEq

structure CheckAndRouteOutput where
  decision : RouteDecision
  final_tool_used : String
  cost_estimate : ℚ
  remaining_budget : Option ℚ
  message : String
deriving DecidableEq

structure RouteInput where
  tenant_id : String
  user_id : String
  tool_id : String
  estimated_units : ℚ
deriving DecidableEq

/-- Injection points for hard failures (promise rejections) inside the
router's `try` block; the happy path is `noFaults`. -/
structure Faults where
  getToolThrows : Bool
  planCheckThrows : Bool
  fallbackThrows : Bool
  evalThrows : Bool
  recordThrows : Bool
deriving DecidableEq

def noFaults : Faults := ⟨false, false, false, false, false⟩

/-- JS `String.prototype.trim()` (used on `tenant_id` and `user_id` in
`checkAndRoute`): strip leading and trailing whitespace. -/
def strTrim (s : String) : String :=
  ⟨((s.data.dropWhile Char.isWhitespace).reverse.dropWhile Char.isWhitespace).reverse⟩

/-- Body of the `try` block of `checkAndRoute`; `Except.error` is a thrown
exception reaching the boundary. -/
def checkAndRouteCore (f : Faults) (st : Store) (c : Clock) (inp : RouteInput) :
    Except Unit (CheckAndRouteOutput × Store) :=
  let tenant_id := strTrim inp.tenant_id
  let user_id := strTrim inp.user_id
  if f.getToolThrows then .error () else
  match dbGetTool st inp.tool_id with
  | none =>
    .ok (⟨.denied, inp.tool_id, 0, some 0, "Tool " ++ inp.tool_id ++ " not found"⟩, st)
  | some tool =>
    if f.planCheckThrows then .error () else
    if !isToolAllowedForPlan st tenant_id inp.tool_id then
      if f.fallbackThrows then .error () else
      match getSuggestedFallback st inp.tool_id with
      | some fallback =>
        .ok (⟨.downgraded, fallback, 0, some 0,
          "Tool " ++ inp.tool_id ++ " not available on your plan. Downgraded to " ++
            fallback⟩, st)
      | none =>
        .ok (⟨.denied, inp.tool_id, 0, some 0,
          "Tool " ++ inp.tool_id ++ " not available on your plan"⟩, st)
    else
    if f.evalThrows then .error () else
    let estimatedCost := estimateCost tool inp.estimated_units
    let evaluation := evaluateRequest st c tenant_id user_id inp.tool_id estimatedCost
    if !evaluation.allowed then
      if f.recordThrows then .error () else
      let st1 := recordUsage st c ⟨c.now, tenant_id, user_id, inp.tool_id, 0, 0, .denied⟩
      .ok (⟨.denied, inp.tool_id, estimatedCost,
        evaluation.limit.map (fun l => l - evaluation.current_usage),
        evaluation.reason⟩, st1)
    else
      match evaluation.suggested_tool with
      | some fb =>
        let fallbackCost :=
          match dbGetTool st fb with
          | some fallbackTool => estimateCost fallbackTool inp.estimated_units
          | none => estimatedCost
        if f.recordThrows then .error () else
        let st1 := recordUsage st c
          ⟨c.now, tenant_id, user_id, fb, inp.estimated_units, fallbackCost, .downgraded⟩
        .ok (⟨.downgraded, fb, fallbackCost,
          evaluation.limit.map (fun l => l - evaluation.current_usage - fallbackCost),
          evaluation.reason⟩, st1)
      | none =>
        if f.recordThrows then .error () else
        let st1 := recordUsage st c
          ⟨c.now, tenant_id, user_id, inp.tool_id, inp.estimated_units, estimatedCost,
            .allowed⟩
        .ok (⟨.allowed, inp.tool_id, estimatedCost,
          evaluation.limit.map (fun l => l - evaluation.current_usage - estimatedCost),
          "Request approved and routed"⟩, st1)

/-- `checkAndRoute`: the `try`/`catch` boundary converting any thrown
failure into a denied outcome with cost 0 and remaining budget 0. -/
def checkAndRoute (f : Faults) (st : Store) (c : Clock) (inp : RouteInput) :
    CheckAndRouteOutput × Store :=
  match checkAndRouteCore f st c inp with
  | .ok r => r
  | .error _ =>
    (⟨.denied, inp.tool_id, 0, some 0, "Error processing request"⟩, st)

/-! ## Auxiliary notions used by the theorems -/

/-- A policy whose check makes the evaluator loop return instead of
continuing: it breaches its limit and its decision is `deny`,
`require_approval`, or `downgrade` with a truthy fallback tool. -/
def policyFires (usage : PeriodKind → ℚ) (estimatedCost : ℚ) (p : Policy) : Prop :=
  p.limit_value < usage p.limit_type.window + estimatedCost ∧
    (p.decision = .deny ∨ p.decision = .require_approval ∨
      (p.decision = .downgrade ∧ fallbackPresent p.fallback_tool_id = true))

instance (usage : PeriodKind → ℚ) (estimatedCost : ℚ) (p : Policy) :
    Decidable (policyFires usage estimatedCost p) := by
  unfold policyFires; infer_instance

/-- Start of the current UTC day, as the spec words the window boundary
(for comparison with the local-time computation of the source). -/
def utcDayStartSpec (t : ℤ) : ℤ := t - t.emod 1440

/-- Start of the current UTC month, as the spec words the monthly window
boundary. -/
def utcMonthStartSpec (t : ℤ) : ℤ :=
  let ud := t.ediv 1440
  let c := civilFromDays ud
  daysFromCivil c.1 c.2.1 1 * 1440

/-- Numeric position of a scope string in the lexicographic order of the
three VARCHAR values: "tenant" < "tool" < "user". -/
def scopeRank : Scope → ℕ
  | .tenant => 0
  | .tool => 1
  | .user => 2

/-- The lexicographic comparison of two scope strings agrees with
`scopeRank`; in particular "user" sorts above "tool". -/
theorem scope_str_lt (a b : Scope) : a.str < b.str ↔ scopeRank a < scopeRank b := by
  cases a <;> cases b <;>
    simp only [Scope.str, scopeRank, String.lt_iff_toList_lt] <;> decide

/-- The same fact for the underlying character lists, in the shape left
by the simp normal form of string comparison. -/
theorem scope_str_data_lt (a b : Scope) :
    a.str.data < b.str.data ↔ scopeRank a < scopeRank b := by
  cases a <;> cases b <;> simp only [Scope.str, scopeRank] <;> decide

/-! ## Concrete instances used by counterexamples and code-bug witnesses -/

/-- Store whose policies select returns a store error. -/
def errStore : Store := ⟨[], [], .error (), [], []⟩

def tenPol : Policy := ⟨"T", .tenant, none, .daily, 100, none, .deny⟩

def toolPol : Policy := ⟨"T", .tool, some "x", .per_request, 0, some "y", .downgrade⟩

def userPol : Policy := ⟨"T", .user, some "u1", .daily, 0, none, .deny⟩

/-- Store for the specificity-order scenario: one policy of each scope,
all applicable to tenant `T`, user `u1`, tool `x`. -/
def scopeStore : Store := ⟨[], [], .ok [tenPol, toolPol, userPol], [], []⟩

/-- Store for the usage-read scenario: the single aggregate row of tenant
`T` belongs to user `alice` and tool `gpt-4`. -/
def aliceStore : Store := ⟨[], [], .ok [], [⟨"T", "alice", "gpt-4", .day, 0, 10, 5⟩], []⟩

/-- Aggregates table holding one row for the contended key, with
`total_cost = 5`. -/
def raceRows : List AggRow := [⟨"T", "u", "x", .day, 0, 1, 5⟩]

/-! ## C1 -/

/-- C1 counterexample: the claim says a store error while fetching
policies is treated as denied; in the code `getApplicablePolicies`
returns `[]` on a store error and `evaluateRequest` then allows by
default. -/
theorem C1_counterexample :
    (evaluateRequest errStore ⟨30, 0⟩ "T" "u" "x" 1).allowed = true ∧
      (evaluateRequest errStore ⟨30, 0⟩ "T" "u" "x" 1).reason =
        "No policies defined, allowing by default" := by
  constructor <;> rfl

/-- C1 (amended): a store error on the policies fetch makes the engine
allow by default (fail-open), while a failure thrown inside the router is
caught at the boundary and converted into a denied outcome with
cost_estimate 0 and remaining_budget 0 instead of propagating. -/
theorem C1_amended_thm :
    (∀ (st : Store) (c : Clock) (tenantId userId toolId : String) (cost : ℚ),
        st.policiesFetch = .error () →
          (evaluateRequest st c tenantId userId toolId cost).allowed = true ∧
            (evaluateRequest st c tenantId userId toolId cost).reason =
              "No policies defined, allowing by default") ∧
      (∀ (f : Faults) (st : Store) (c : Clock) (inp : RouteInput),
        checkAndRouteCore f st c inp = .error () →
          checkAndRoute f st c inp =
            (⟨.denied, inp.tool_id, 0, some 0, "Error processing request"⟩, st)) := by
  constructor
  · intro st c tenantId userId toolId cost herr
    unfold evaluateRequest getApplicablePolicies
    rw [herr]
    exact ⟨rfl, rfl⟩
  · intro f st c inp herr
    unfold checkAndRoute
    rw [herr]

/-- C1 witness: the amended theorem applied at a concrete erroring store
and at a concrete throwing router run. -/
theorem C1_witness :
    ((evaluateRequest errStore ⟨30, 0⟩ "E" "u" "x" 1).allowed = true ∧
        (evaluateRequest errStore ⟨30, 0⟩ "E" "u" "x" 1).reason =
          "No policies defined, allowing by default") ∧
      checkAndRoute ⟨true, false, false, false, false⟩ errStore ⟨30, 0⟩ ⟨"E", "u", "x", 1⟩ =
        (⟨.denied, "x", 0, some 0, "Error processing request"⟩, errStore) :=
  ⟨C1_amended_thm.1 errStore ⟨30, 0⟩ "E" "u" "x" 1 rfl,
    C1_amended_thm.2 ⟨true, false, false, false, false⟩ errStore ⟨30, 0⟩ ⟨"E", "u", "x", 1⟩ rfl⟩

/-! ## C2 -/

/-- C2 code bug: `order('scope', { ascending: false })` sorts the VARCHAR
scope values descending, which puts user-scope policies before tool-scope
policies (`"user" > "tool" > "tenant"` lexicographically), contradicting
the source comment `tool > user > tenant`.  The breaching user-scope deny
policy is acted on although a tool-scope downgrade policy also breaches:
the result is denied with no suggested tool. -/
theorem C2_code_bug :
    getApplicablePolicies scopeStore "T" "u1" "x" = [userPol, toolPol, tenPol] ∧
      (evaluateRequest scopeStore ⟨30, 0⟩ "T" "u1" "x" 1).allowed = false ∧
      (evaluateRequest scopeStore ⟨30, 0⟩ "T" "u1" "x" 1).suggested_tool = none ∧
      policyFires (fun pk => getCurrentUsage scopeStore ⟨30, 0⟩ "T" "u1" "x" pk) 1 toolPol := by
  refine ⟨?_, ?_, ?_, ?_, Or.inr (Or.inr ⟨rfl, by decide⟩)⟩ <;>
    norm_num [getApplicablePolicies, scopeStore, orderScopeDesc, insertScopeDesc,
      policyApplies, tenPol, toolPol, userPol, scope_str_lt, scope_str_data_lt, scopeRank,
      evaluateRequest, evaluateRequestWith, evaluateLoop, getCurrentUsage, maybeSingle,
      Clock.periodStart, localDayStart, dateOfInstant, PeriodKind.db, LimitType.window,
      headLimitOf, policyFires]

/-! ## C3 -/

/-- C3 code bug: `getCurrentUsage` filters the aggregates table only by
tenant, period type and period start — not by the user or tool of the
request — so the usage read for user `bob`, tool `vector-db` returns the
total of the row stored for user `alice`, tool `gpt-4`. -/
theorem C3_code_bug :
    aliceStore.aggregates = [⟨"T", "alice", "gpt-4", .day, 0, 10, 5⟩] ∧
      getCurrentUsage aliceStore ⟨30, 0⟩ "T" "bob" "vector-db" .daily = 5 := by
  exact ⟨rfl, by decide⟩

/-! ## C8 -/

/-- C8 code bug: `upsertAggregate` is a select (`upsertRead`) followed by
a write (`upsertWrite`), not one atomic conditional write.  When two
concurrent requests for the same key both read before either writes, one
increment is lost: from a stored total of 5, two upserts of cost 1 leave
6, while the sequential composition leaves 7. -/
theorem C8_lost_update :
    aggTotalCost
        (upsertWrite
          (upsertWrite raceRows "T" "u" "x" .day 0 (upsertRead raceRows "T" "u" "x" .day 0) 1 1)
          "T" "u" "x" .day 0 (upsertRead raceRows "T" "u" "x" .day 0) 1 1)
        "T" "u" "x" .day 0 = 6 ∧
      aggTotalCost
        (upsertAggregate (upsertAggregate raceRows "T" "u" "x" .day 0 1 1)
          "T" "u" "x" .day 0 1 1) "T" "u" "x" .day 0 = 7 := by
  constructor <;>
    norm_num [aggTotalCost, upsertAggregate, upsertRead, upsertWrite, raceRows,
      matchesKey, maybeSingle]

/-! ## C9 -/

/-- C9 counterexample: at instant 30 (1970-01-01T00:30Z) with timezone
offset +60 minutes, the source computes the period start from the local
clock: `-60` (1969-12-31T23:00Z), not the start of the current UTC day
(`0`) nor the start of the current UTC month (`0`). -/
theorem C9_counterexample :
    Clock.periodStart ⟨30, 60⟩ .daily = -60 ∧ utcDayStartSpec 30 = 0 ∧
      Clock.periodStart ⟨30, 60⟩ .daily ≠ utcDayStartSpec 30 ∧
      Clock.periodStart ⟨30, 60⟩ .monthly = -60 ∧ utcMonthStartSpec 30 = 0 ∧
      Clock.periodStart ⟨30, 60⟩ .monthly ≠ utcMonthStartSpec 30 := by
  refine ⟨by decide, by decide, by decide, ?_, ?_, ?_⟩ <;> decide

/-! ## Lemmas about the evaluator loop -/

/-- A policy whose check does not fire is skipped: the loop continues
with the remaining policies unchanged. -/
theorem evaluateLoop_cons_of_not_fires (usage : PeriodKind → ℚ) (estimatedCost : ℚ)
    (headLimit : Option ℚ) (p : Policy) (rest : List Policy)
    (h : ¬ policyFires usage estimatedCost p) :
    evaluateLoop usage estimatedCost headLimit (p :: rest) =
      evaluateLoop usage estimatedCost headLimit rest := by
  unfold policyFires at h
  push_neg at h
  by_cases hb : p.limit_value < usage p.limit_type.window + estimatedCost
  · have hdec := h hb
    cases hd : p.decision with
    | deny => exact absurd (by simp [hd]) hdec.1
    | require_approval => exact absurd (by simp [hd]) hdec.2.1
    | allow => simp [evaluateLoop, hb, hd]
    | downgrade =>
      have hfb : fallbackPresent p.fallback_tool_id = false := by
        have := hdec.2.2 hd
        simpa using this
      cases hft : p.fallback_tool_id with
      | none => simp [evaluateLoop, hb, hd, hft]
      | some s =>
        have hse : s.isEmpty = true := by
          rw [hft] at hfb
          simpa [fallbackPresent] using hfb
        simp [evaluateLoop, hb, hd, hft, hse]
  · simp [evaluateLoop, hb]

/-- A whole prefix of non-firing policies is skipped. -/
theorem evaluateLoop_append_of_not_fires (usage : PeriodKind → ℚ) (estimatedCost : ℚ)
    (headLimit : Option ℚ) (pre rest : List Policy)
    (h : ∀ q ∈ pre, ¬ policyFires usage estimatedCost q) :
    evaluateLoop usage estimatedCost headLimit (pre ++ rest) =
      evaluateLoop usage estimatedCost headLimit rest := by
  induction pre with
  | nil => rfl
  | cons q qs ih =>
    rw [List.cons_append,
      evaluateLoop_cons_of_not_fires usage estimatedCost headLimit q (qs ++ rest)
        (h q (List.mem_cons_self q qs))]
    exact ih fun r hr => h r (List.mem_cons_of_mem q hr)

/-- On a nonempty policy list the evaluator runs the loop with the
`policies[0]?.limit_value || Infinity` reporting limit. -/
theorem evaluateRequestWith_ne_nil (policies : List Policy) (usage : PeriodKind → ℚ)
    (estimatedCost : ℚ) (h : policies ≠ []) :
    evaluateRequestWith policies usage estimatedCost =
      evaluateLoop usage estimatedCost (headLimitOf policies) policies := by
  cases policies with
  | nil => exact absurd rfl h
  | cons p ps => rfl

/-- If the loop reports a suggested tool, some policy in the list
breached its limit, has decision downgrade and carries exactly that
non-empty fallback tool. -/
theorem evaluateLoop_suggested_tool (usage : PeriodKind → ℚ) (estimatedCost : ℚ)
    (headLimit : Option ℚ) (l : List Policy) (fb : String)
    (h : (evaluateLoop usage estimatedCost headLimit l).suggested_tool = some fb) :
    ∃ p ∈ l, p.limit_value < usage p.limit_type.window + estimatedCost ∧
      p.decision = .downgrade ∧ p.fallback_tool_id = some fb ∧ fb.isEmpty = false := by
  induction l with
  | nil => simp [evaluateLoop] at h
  | cons p rest ih =>
    by_cases hb : p.limit_value < usage p.limit_type.window + estimatedCost
    · cases hd : p.decision with
      | deny =>
        rw [show evaluateLoop usage estimatedCost headLimit (p :: rest) =
            ⟨false, "Would exceed " ++ p.limit_type.str ++ " limit of $" ++
              toString p.limit_value, none, usage p.limit_type.window,
              some p.limit_value⟩ by simp [evaluateLoop, hb, hd]] at h
        simp at h
      | require_approval =>
        rw [show evaluateLoop usage estimatedCost headLimit (p :: rest) =
            ⟨false, "Requires manual approval due to budget limit", none,
              usage p.limit_type.window, some p.limit_value⟩ by
            simp [evaluateLoop, hb, hd]] at h
        simp at h
      | allow =>
        rw [show evaluateLoop usage estimatedCost headLimit (p :: rest) =
            evaluateLoop usage estimatedCost headLimit rest by
            simp [evaluateLoop, hb, hd]] at h
        obtain ⟨q, hq, hrest⟩ := ih h
        exact ⟨q, List.mem_cons_of_mem p hq, hrest⟩
      | downgrade =>
        cases hft : p.fallback_tool_id with
        | none =>
          rw [show evaluateLoop usage estimatedCost headLimit (p :: rest) =
              evaluateLoop usage estimatedCost headLimit rest by
              simp [evaluateLoop, hb, hd, hft]] at h
          obtain ⟨q, hq, hrest⟩ := ih h
          exact ⟨q, List.mem_cons_of_mem p hq, hrest⟩
        | some s =>
          cases hse : s.isEmpty with
          | true =>
            rw [show evaluateLoop usage estimatedCost headLimit (p :: rest) =
                evaluateLoop usage estimatedCost headLimit rest by
                simp [evaluateLoop, hb, hd, hft, hse]] at h
            obtain ⟨q, hq, hrest⟩ := ih h
            exact ⟨q, List.mem_cons_of_mem p hq, hrest⟩
          | false =>
            rw [show evaluateLoop usage estimatedCost headLimit (p :: rest) =
                ⟨true, "Downgrading to " ++ s ++ " due to budget limit", some s,
                  usage p.limit_type.window, some p.limit_value⟩ by
                simp [evaluateLoop, hb, hd, hft, hse]] at h
            simp at h
            exact ⟨p, List.mem_cons_self p rest, hb, hd, by rw [hft, h], by rw [← h]; exact hse⟩
    · rw [show evaluateLoop usage estimatedCost headLimit (p :: rest) =
          evaluateLoop usage estimatedCost headLimit rest by
          simp [evaluateLoop, hb]] at h
      obtain ⟨q, hq, hrest⟩ := ih h
      exact ⟨q, List.mem_cons_of_mem p hq, hrest⟩

/-! ## C10 -/

/-- C10: a breached downgrade policy whose fallback_tool_id is missing is
silently skipped (the loop continues with the remaining policies), and any
suggested_tool in an evaluation result is the non-empty fallback_tool_id
of some breached downgrade policy of the list. -/
theorem C10_skip_and_suggested :
    (∀ (usage : PeriodKind → ℚ) (estimatedCost : ℚ) (headLimit : Option ℚ)
        (p : Policy) (rest : List Policy),
      p.decision = .downgrade → fallbackPresent p.fallback_tool_id = false →
        evaluateLoop usage estimatedCost headLimit (p :: rest) =
          evaluateLoop usage estimatedCost headLimit rest) ∧
      (∀ (policies : List Policy) (usage : PeriodKind → ℚ) (estimatedCost : ℚ)
          (fb : String),
        (evaluateRequestWith policies usage estimatedCost).suggested_tool = some fb →
          ∃ p ∈ policies, p.limit_value < usage p.limit_type.window + estimatedCost ∧
            p.decision = .downgrade ∧ p.fallback_tool_id = some fb ∧
            fb.isEmpty = false) := by
  constructor
  · intro usage estimatedCost headLimit p rest hdec hfb
    apply evaluateLoop_cons_of_not_fires
    rintro ⟨-, hfire | hfire | ⟨-, hpres⟩⟩
    · rw [hdec] at hfire; cases hfire
    · rw [hdec] at hfire; cases hfire
    · rw [hfb] at hpres; cases hpres
  · intro policies usage estimatedCost fb h
    cases policies with
    | nil => simp [evaluateRequestWith] at h
    | cons p ps =>
      exact evaluateLoop_suggested_tool usage estimatedCost
        (headLimitOf (p :: ps)) (p :: ps) fb h

/-- C10 witness: the skip behaviour at a concrete breached
downgrade-without-fallback policy, and the suggested-tool
characterization at a concrete evaluation that downgrades to "y". -/
theorem C10_witness :
    evaluateLoop (fun _ => 7) 1 none
        (⟨"T", .tool, some "x", .daily, 0, none, .downgrade⟩ :: [tenPol]) =
      evaluateLoop (fun _ => 7) 1 none [tenPol] ∧
      ∃ p ∈ [toolPol], p.limit_value < (fun _ => (0 : ℚ)) p.limit_type.window + 1 ∧
        p.decision = .downgrade ∧ p.fallback_tool_id = some "y" ∧
        ("y").isEmpty = false :=
  ⟨C10_skip_and_suggested.1 (fun _ => 7) 1 none
      ⟨"T", .tool, some "x", .daily, 0, none, .downgrade⟩ [tenPol] rfl rfl,
    C10_skip_and_suggested.2 [toolPol] (fun _ => 0) 1 "y"
      (by norm_num [evaluateRequestWith, evaluateLoop, toolPol, LimitType.window,
        show ("y").isEmpty = false by decide])⟩

/-! ## C4 -/

/-- Store for the preemption scenario: tool `x` carries the
per_request-0 downgrade policy, and the same tenant also has a breaching
user-scope deny policy, which the fetched order places first. -/
def c4Store : Store := ⟨[], [], .ok [toolPol, userPol], [], []⟩

/-- C4 counterexample: the request on tool `x` by user `u1` carries the
per_request policy with limit 0 and decision downgrade (fallback `y`) and
has positive estimated cost, yet the evaluation does not downgrade: the
user-scope deny policy sorts ahead of it, breaches first, and the request
is denied with no suggested tool. -/
theorem C4_counterexample :
    toolPol ∈ getApplicablePolicies c4Store "T" "u1" "x" ∧
      toolPol.limit_type = .per_request ∧ toolPol.limit_value = 0 ∧
      toolPol.decision = .downgrade ∧ toolPol.fallback_tool_id = some "y" ∧
      (0 : ℚ) < 1 ∧
      (evaluateRequest c4Store ⟨30, 0⟩ "T" "u1" "x" 1).allowed = false ∧
      (evaluateRequest c4Store ⟨30, 0⟩ "T" "u1" "x" 1).suggested_tool = none := by
  have hap : getApplicablePolicies c4Store "T" "u1" "x" = [userPol, toolPol] := by
    norm_num [getApplicablePolicies, c4Store, orderScopeDesc, insertScopeDesc,
      policyApplies, toolPol, userPol, scope_str_lt, scope_str_data_lt, scopeRank]
  refine ⟨by rw [hap]; simp, rfl, rfl, rfl, rfl, by norm_num, ?_, ?_⟩ <;>
    norm_num [evaluateRequest, evaluateRequestWith, evaluateLoop, getApplicablePolicies,
      c4Store, orderScopeDesc, insertScopeDesc, policyApplies, toolPol, userPol,
      scope_str_lt, scope_str_data_lt, scopeRank, getCurrentUsage, maybeSingle,
      Clock.periodStart, localDayStart, dateOfInstant, PeriodKind.db, LimitType.window,
      headLimitOf]

/-- C4 (amended): a per_request policy with limit 0 and decision
downgrade (with a truthy fallback) is measured against the daily window
and, for any positive estimated cost and any non-negative current usage,
breaches and makes the evaluation return allowed with its fallback as
suggested tool — provided no policy ahead of it in the fetched order
fires first (in particular whenever it is the only applicable policy);
otherwise the earlier firing policy's outcome wins, per the
first-breach-wins loop semantics. -/
theorem C4_downgrade_zero_limit (pre post : List Policy) (p : Policy) (fb : String)
    (usage : PeriodKind → ℚ) (estimatedCost : ℚ)
    (hlt : p.limit_type = .per_request) (hlv : p.limit_value = 0)
    (hdec : p.decision = .downgrade) (hfb : p.fallback_tool_id = some fb)
    (hfbne : fb.isEmpty = false) (hcost : 0 < estimatedCost)
    (husage : 0 ≤ usage .daily)
    (hpre : ∀ q ∈ pre, ¬ policyFires usage estimatedCost q) :
    (evaluateRequestWith (pre ++ p :: post) usage estimatedCost).allowed = true ∧
      (evaluateRequestWith (pre ++ p :: post) usage estimatedCost).suggested_tool =
        some fb ∧
      (evaluateRequestWith (pre ++ p :: post) usage estimatedCost).current_usage =
        usage .daily ∧
      (evaluateRequestWith (pre ++ p :: post) usage estimatedCost).limit = some 0 := by
  have hne : pre ++ p :: post ≠ [] := by simp
  have hwin : p.limit_type.window = .daily := by rw [hlt]; rfl
  have hb : p.limit_value < usage p.limit_type.window + estimatedCost := by
    rw [hlv, hwin]
    linarith
  rw [evaluateRequestWith_ne_nil _ _ _ hne,
    evaluateLoop_append_of_not_fires _ _ _ _ _ hpre,
    show evaluateLoop usage estimatedCost (headLimitOf (pre ++ p :: post)) (p :: post) =
      ⟨true, "Downgrading to " ++ fb ++ " due to budget limit", some fb,
        usage p.limit_type.window, some p.limit_value⟩ by
      simp [evaluateLoop, hb, hdec, hfb, hfbne]]
  exact ⟨rfl, rfl, by rw [hwin], by rw [hlv]⟩

/-- C4 witness: the per_request limit-0 downgrade policy on tool "x" as
the only applicable policy, with current usage 7 and estimated cost 1. -/
theorem C4_witness :
    (evaluateRequestWith [toolPol] (fun _ => 7) 1).allowed = true ∧
      (evaluateRequestWith [toolPol] (fun _ => 7) 1).suggested_tool = some "y" ∧
      (evaluateRequestWith [toolPol] (fun _ => 7) 1).current_usage = 7 ∧
      (evaluateRequestWith [toolPol] (fun _ => 7) 1).limit = some 0 :=
  C4_downgrade_zero_limit [] [] toolPol "y" (fun _ => 7) 1 rfl rfl rfl rfl
    (by decide) (by norm_num) (by norm_num) (by simp)

/-! ## Lemmas about the fallback search -/

/-- The minimum search fails only on the empty list. -/
theorem minCostFirst_none (l : List Tool) (h : minCostFirst l = none) : l = [] := by
  cases l with
  | nil => rfl
  | cons a as =>
    rw [minCostFirst] at h
    cases hm : minCostFirst as with
    | none => simp only [hm] at h; simp at h
    | some u => simp only [hm] at h; split at h <;> simp at h

/-- The picked minimum-cost tool is a member of the searched list. -/
theorem minCostFirst_mem (l : List Tool) (t : Tool) (h : minCostFirst l = some t) :
    t ∈ l := by
  induction l with
  | nil => simp [minCostFirst] at h
  | cons a as ih =>
    rw [minCostFirst] at h
    cases hm : minCostFirst as with
    | none =>
      simp only [hm, Option.some.injEq] at h
      subst h
      exact List.mem_cons_self a as
    | some u =>
      simp only [hm] at h
      by_cases hc : a.cost_per_unit ≤ u.cost_per_unit
      · rw [if_pos hc, Option.some.injEq] at h
        subst h
        exact List.mem_cons_self a as
      · rw [if_neg hc, Option.some.injEq] at h
        subst h
        exact List.mem_cons_of_mem a (ih hm)

/-- The picked tool has minimal cost per unit among the searched list. -/
theorem minCostFirst_min (l : List Tool) (t : Tool) (h : minCostFirst l = some t) :
    ∀ u ∈ l, t.cost_per_unit ≤ u.cost_per_unit := by
  induction l generalizing t with
  | nil => simp [minCostFirst] at h
  | cons a as ih =>
    rw [minCostFirst] at h
    cases hm : minCostFirst as with
    | none =>
      have has : as = [] := minCostFirst_none as hm
      simp only [hm, Option.some.injEq] at h
      subst h
      simp [has]
    | some u =>
      simp only [hm] at h
      by_cases hc : a.cost_per_unit ≤ u.cost_per_unit
      · rw [if_pos hc, Option.some.injEq] at h
        subst h
        intro v hv
        rcases List.mem_cons.mp hv with hv | hv
        · rw [hv]
        · exact le_trans hc (ih u hm v hv)
      · rw [if_neg hc, Option.some.injEq] at h
        subst h
        intro v hv
        rcases List.mem_cons.mp hv with hv | hv
        · rw [hv]; exact le_of_lt (lt_of_not_le hc)
        · exact ih u hm v hv

/-- Characterization of `getSuggestedFallback` when the original tool is
found in the catalog: a returned id names the cheapest same-category tool
other than the original, and `none` means no such alternative exists. -/
theorem getSuggestedFallback_spec (st : Store) (toolId : String) (tool : Tool)
    (htool : st.tools.find? (fun t => t.id == toolId) = some tool) :
    (∀ fb, getSuggestedFallback st toolId = some fb →
      ∃ t ∈ st.tools, t.id = fb ∧ t.category = tool.category ∧ t.id ≠ toolId ∧
        ∀ u ∈ st.tools, u.category = tool.category → u.id ≠ toolId →
          t.cost_per_unit ≤ u.cost_per_unit) ∧
      (getSuggestedFallback st toolId = none →
        ∀ u ∈ st.tools, u.category = tool.category → u.id ≠ toolId → False) := by
  constructor
  · intro fb hfb
    unfold getSuggestedFallback at hfb
    rw [htool] at hfb
    dsimp only at hfb
    cases hmin : minCostFirst (st.tools.filter fun t =>
        t.category == tool.category && t.id != toolId) with
    | none => rw [hmin] at hfb; cases hfb
    | some t =>
      rw [hmin] at hfb
      simp at hfb
      have hmem := minCostFirst_mem _ _ hmin
      rw [List.mem_filter] at hmem
      obtain ⟨hmem, hcond⟩ := hmem
      simp at hcond
      refine ⟨t, hmem, hfb, hcond.1, hcond.2, ?_⟩
      intro u hu hcat hne
      exact minCostFirst_min _ _ hmin u
        (List.mem_filter.mpr ⟨hu, by simp [hcat, hne]⟩)
  · intro hn u hu hcat hne
    unfold getSuggestedFallback at hn
    rw [htool] at hn
    dsimp only at hn
    cases hmin : minCostFirst (st.tools.filter fun t =>
        t.category == tool.category && t.id != toolId) with
    | some t => rw [hmin] at hn; cases hn
    | none =>
      have := minCostFirst_none _ hmin
      have hmem : u ∈ st.tools.filter fun t =>
          t.category == tool.category && t.id != toolId :=
        List.mem_filter.mpr ⟨hu, by simp [hcat, hne]⟩
      rw [this] at hmem
      cases hmem

/-! ## C6 -/

/-- C6: for a free-plan tenant requesting a premium-tier tool, the
plan-tier gate fires before cost estimation and policy evaluation: the
store is untouched (no usage event recorded), the reported cost estimate
is 0, and the outcome is a downgrade to the cheapest same-category
alternative when one exists, else a denial. -/
theorem C6_plan_gate (st : Store) (c : Clock) (inp : RouteInput)
    (tenant : Tenant) (tool : Tool)
    (hten : st.tenants.find? (fun t => t.id == strTrim inp.tenant_id) = some tenant)
    (hplan : tenant.plan = .free)
    (htool : dbGetTool st inp.tool_id = some tool)
    (htier : tool.tier = .premium) :
    (checkAndRoute noFaults st c inp).2 = st ∧
      (checkAndRoute noFaults st c inp).1.cost_estimate = 0 ∧
      (∀ fb, getSuggestedFallback st inp.tool_id = some fb →
        (checkAndRoute noFaults st c inp).1 =
          ⟨.downgraded, fb, 0, some 0,
            "Tool " ++ inp.tool_id ++ " not available on your plan. Downgraded to " ++
              fb⟩ ∧
          ∃ t ∈ st.tools, t.id = fb ∧ t.category = tool.category ∧ t.id ≠ inp.tool_id ∧
            ∀ u ∈ st.tools, u.category = tool.category → u.id ≠ inp.tool_id →
              t.cost_per_unit ≤ u.cost_per_unit) ∧
      (getSuggestedFallback st inp.tool_id = none →
        (checkAndRoute noFaults st c inp).1 =
          ⟨.denied, inp.tool_id, 0, some 0,
            "Tool " ++ inp.tool_id ++ " not available on your plan"⟩ ∧
          ∀ u ∈ st.tools, u.category = tool.category → u.id ≠ inp.tool_id → False) := by
  have hgate : isToolAllowedForPlan st (strTrim inp.tenant_id) inp.tool_id = false := by
    unfold isToolAllowedForPlan
    rw [hten, show st.tools.find? (fun t => t.id == inp.tool_id) = some tool from htool]
    simp [hplan, htier]
  have hspec := getSuggestedFallback_spec st inp.tool_id tool htool
  cases hsf : getSuggestedFallback st inp.tool_id with
  | some fb =>
    have hroute : checkAndRoute noFaults st c inp =
        (⟨.downgraded, fb, 0, some 0,
          "Tool " ++ inp.tool_id ++ " not available on your plan. Downgraded to " ++
            fb⟩, st) := by
      unfold checkAndRoute checkAndRouteCore
      simp [noFaults, htool, hgate, hsf]
    refine ⟨by rw [hroute], by rw [hroute], ?_, ?_⟩
    · intro fb2 hfb2
      cases hfb2
      exact ⟨by rw [hroute], hspec.1 fb hsf⟩
    · intro hnone
      cases hnone
  | none =>
    have hroute : checkAndRoute noFaults st c inp =
        (⟨.denied, inp.tool_id, 0, some 0,
          "Tool " ++ inp.tool_id ++ " not available on your plan"⟩, st) := by
      unfold checkAndRoute checkAndRouteCore
      simp [noFaults, htool, hgate, hsf]
    refine ⟨by rw [hroute], by rw [hroute], ?_, ?_⟩
    · intro fb2 hfb2
      cases hfb2
    · intro hnone
      exact ⟨by rw [hroute], fun u hu hcat hne => hspec.2 hsf u hu hcat hne⟩

/-- Free tenant, premium tool and its cheap same-category alternative,
as in the demo data. -/
def gateStore : Store :=
  ⟨[⟨"F", .free⟩],
    [⟨"gpt-4", "llm", .premium, 3⟩, ⟨"gpt-3.5-turbo", "llm", .cheap, 1⟩],
    .ok [], [], []⟩

/-- C6 witness: the free-plan tenant `F` requesting premium `gpt-4` is
downgraded at the gate to `gpt-3.5-turbo` with cost 0 and the store (in
particular the event log) unchanged. -/
theorem C6_witness :
    (checkAndRoute noFaults gateStore ⟨30, 0⟩ ⟨"F", "u", "gpt-4", 10⟩).2 = gateStore ∧
      (checkAndRoute noFaults gateStore ⟨30, 0⟩ ⟨"F", "u", "gpt-4", 10⟩).1.cost_estimate
        = 0 ∧
      ((checkAndRoute noFaults gateStore ⟨30, 0⟩ ⟨"F", "u", "gpt-4", 10⟩).1 =
        ⟨.downgraded, "gpt-3.5-turbo", 0, some 0,
          "Tool " ++ "gpt-4" ++ " not available on your plan. Downgraded to " ++
            "gpt-3.5-turbo"⟩ ∧
        ∃ t ∈ gateStore.tools, t.id = "gpt-3.5-turbo" ∧ t.category = "llm" ∧
          t.id ≠ "gpt-4" ∧
          ∀ u ∈ gateStore.tools, u.category = "llm" → u.id ≠ "gpt-4" →
            t.cost_per_unit ≤ u.cost_per_unit) := by
  have h := C6_plan_gate gateStore ⟨30, 0⟩ ⟨"F", "u", "gpt-4", 10⟩ ⟨"F", .free⟩
    ⟨"gpt-4", "llm", .premium, 3⟩ (by decide) rfl (by decide) rfl
  exact ⟨h.1, h.2.1, h.2.2.1 "gpt-3.5-turbo" (by decide)⟩

/-! ## C5 -/

/-- C5: for a request that reaches policy evaluation (tool found, plan
gate passed), the returned remaining_budget is limit − current_usage −
charged cost, where the charged cost is 0 on a denial, the fallback
tool's re-estimated cost on a downgrade, and the requested tool's
estimated cost on an allowance (the unbounded `Infinity` limit is `none`,
on which the subtraction stays `none`). -/
theorem C5_remaining_budget (st : Store) (c : Clock) (inp : RouteInput) (tool : Tool)
    (ev : PolicyEvaluationResult) (cost : ℚ)
    (htool : dbGetTool st inp.tool_id = some tool)
    (hplan : isToolAllowedForPlan st (strTrim inp.tenant_id) inp.tool_id = true)
    (hcost : cost = estimateCost tool inp.estimated_units)
    (hev : ev = evaluateRequest st c (strTrim inp.tenant_id) (strTrim inp.user_id)
      inp.tool_id cost) :
    (ev.allowed = false →
        (checkAndRoute noFaults st c inp).1 =
          ⟨.denied, inp.tool_id, cost,
            ev.limit.map (fun l => l - ev.current_usage), ev.reason⟩) ∧
      (∀ fb fallbackTool, ev.allowed = true → ev.suggested_tool = some fb →
        dbGetTool st fb = some fallbackTool →
          (checkAndRoute noFaults st c inp).1 =
            ⟨.downgraded, fb, estimateCost fallbackTool inp.estimated_units,
              ev.limit.map (fun l => l - ev.current_usage -
                estimateCost fallbackTool inp.estimated_units), ev.reason⟩) ∧
      (ev.allowed = true → ev.suggested_tool = none →
        (checkAndRoute noFaults st c inp).1 =
          ⟨.allowed, inp.tool_id, cost,
            ev.limit.map (fun l => l - ev.current_usage - cost),
            "Request approved and routed"⟩) := by
  subst hcost
  subst hev
  refine ⟨?_, ?_, ?_⟩
  · intro hden
    unfold checkAndRoute checkAndRouteCore
    simp [noFaults, htool, hplan, hden]
  · intro fb fallbackTool hall hsug hfbt
    unfold checkAndRoute checkAndRouteCore
    simp [noFaults, htool, hplan, hall, hsug, hfbt]
  · intro hall hsug
    unfold checkAndRoute checkAndRouteCore
    simp [noFaults, htool, hplan, hall, hsug]

/-- Pro tenant with one standard tool and no policies, for exercising the
allowed branch. -/
def proStore : Store := ⟨[⟨"P", .pro⟩], [⟨"t1", "llm", .standard, 2⟩], .ok [], [], []⟩

/-- C5 witness: with no policies the evaluation allows with unbounded
limit, and the routed output carries the estimated cost 6 = 2 × 3 with
remaining_budget `none` (Infinity − 0 − 6). -/
theorem C5_witness :
    (checkAndRoute noFaults proStore ⟨30, 0⟩ ⟨"P", "u", "t1", 3⟩).1 =
      ⟨.allowed, "t1", 6, none, "Request approved and routed"⟩ :=
  (C5_remaining_budget proStore ⟨30, 0⟩ ⟨"P", "u", "t1", 3⟩ ⟨"t1", "llm", .standard, 2⟩
      (evaluateRequest proStore ⟨30, 0⟩ (strTrim "P") (strTrim "u") "t1" 6) 6
      (by decide) (by decide) (by norm_num [estimateCost]) rfl).2.2 rfl rfl

/-! ## Lemmas about the aggregate upsert -/

/-- Filtering commutes with a map that does not change the filtered
predicate. -/
theorem filter_map_of_pred {α : Type} (f : α → α) (q : α → Bool)
    (hq : ∀ r, q (f r) = q r) (l : List α) :
    (l.map f).filter q = (l.filter q).map f := by
  induction l with
  | nil => rfl
  | cons a as ih =>
    simp only [List.map_cons, List.filter_cons, hq a]
    cases hqa : q a <;> simp [hqa, ih]

/-- The totals-only update of `upsertWrite` does not change which keys a
row matches. -/
theorem matchesKey_update (r : AggRow) (x y : ℚ) (tn us tl : String)
    (pt : PeriodType) (ps : ℤ) :
    matchesKey { r with total_cost := x, total_units := y } tn us tl pt ps =
      matchesKey r tn us tl pt ps := rfl

/-- A row cannot match two different keys. -/
theorem matchesKey_unique (r : AggRow) (tn us tl : String) (pt : PeriodType) (ps : ℤ)
    (tn2 us2 tl2 : String) (pt2 : PeriodType) (ps2 : ℤ)
    (h1 : matchesKey r tn us tl pt ps = true)
    (h2 : matchesKey r tn2 us2 tl2 pt2 ps2 = true) :
    tn2 = tn ∧ us2 = us ∧ tl2 = tl ∧ pt2 = pt ∧ ps2 = ps := by
  simp only [matchesKey, Bool.and_eq_true, beq_iff_eq] at h1 h2
  obtain ⟨⟨⟨⟨ha1, hb1⟩, hc1⟩, hd1⟩, he1⟩ := h1
  obtain ⟨⟨⟨⟨ha2, hb2⟩, hc2⟩, hd2⟩, he2⟩ := h2
  exact ⟨ha2.symm.trans ha1, hb2.symm.trans hb1, hc2.symm.trans hc1,
    hd2.symm.trans hd1, he2.symm.trans he1⟩

/-- Appending one row adds its total cost exactly when the row matches
the key. -/
theorem aggTotalCost_append (rows : List AggRow) (r : AggRow) (tn us tl : String)
    (pt : PeriodType) (ps : ℤ) :
    aggTotalCost (rows ++ [r]) tn us tl pt ps =
      aggTotalCost rows tn us tl pt ps +
        if matchesKey r tn us tl pt ps then r.total_cost else 0 := by
  unfold aggTotalCost
  rw [List.filter_append]
  cases hr : matchesKey r tn us tl pt ps <;>
    simp [List.filter_cons, hr]

/-- Effect of one `upsertAggregate` on the stored total of any key, given
that the upserted key currently owns at most one row (the UNIQUE index of
the schema): the upserted key gains `cost`, every other key is
unchanged. -/
theorem aggTotalCost_upsertAggregate (rows : List AggRow)
    (tn2 us2 tl2 : String) (pt2 : PeriodType) (ps2 : ℤ) (cost units : ℚ)
    (tn us tl : String) (pt : PeriodType) (ps : ℤ)
    (hone : (rows.filter (matchesKey · tn2 us2 tl2 pt2 ps2)).length ≤ 1) :
    aggTotalCost (upsertAggregate rows tn2 us2 tl2 pt2 ps2 cost units) tn us tl pt ps =
      aggTotalCost rows tn us tl pt ps +
        if tn2 = tn ∧ us2 = us ∧ tl2 = tl ∧ pt2 = pt ∧ ps2 = ps then cost else 0 := by
  unfold upsertAggregate upsertRead
  cases hfil : rows.filter (matchesKey · tn2 us2 tl2 pt2 ps2) with
  | nil =>
    dsimp only [maybeSingle, upsertWrite]
    rw [hfil]
    simp only [List.isEmpty_nil, if_true]
    rw [aggTotalCost_append]
    have hiff :
        (matchesKey (⟨tn2, us2, tl2, pt2, ps2, units, cost⟩ : AggRow) tn us tl pt ps
          = true) ↔ (tn2 = tn ∧ us2 = us ∧ tl2 = tl ∧ pt2 = pt ∧ ps2 = ps) := by
      simp [matchesKey, and_assoc]
    simp only [hiff]
  | cons r rest2 =>
    cases rest2 with
    | nil =>
      dsimp only [maybeSingle, upsertWrite]
      have hrK : matchesKey r tn2 us2 tl2 pt2 ps2 = true := by
        have hmem : r ∈ rows.filter (matchesKey · tn2 us2 tl2 pt2 ps2) := by
          rw [hfil]; exact List.mem_singleton.mpr rfl
        exact (List.mem_filter.mp hmem).2
      have hq : ∀ x : AggRow,
          matchesKey (if matchesKey x tn2 us2 tl2 pt2 ps2 then
              { x with
                total_cost := r.total_cost + cost,
                total_units := r.total_units + units } else x) tn us tl pt ps =
            matchesKey x tn us tl pt ps := by
        intro x
        by_cases hx : matchesKey x tn2 us2 tl2 pt2 ps2 = true
        · rw [if_pos hx]; rfl
        · rw [if_neg hx]
      unfold aggTotalCost
      rw [filter_map_of_pred _ _ hq]
      by_cases hkey : tn2 = tn ∧ us2 = us ∧ tl2 = tl ∧ pt2 = pt ∧ ps2 = ps
      · obtain ⟨rfl, rfl, rfl, rfl, rfl⟩ := hkey
        rw [if_pos ⟨rfl, rfl, rfl, rfl, rfl⟩, hfil]
        simp [hrK]
      · rw [if_neg hkey, add_zero]
        have hid : ∀ x ∈ rows.filter (matchesKey · tn us tl pt ps),
            (if matchesKey x tn2 us2 tl2 pt2 ps2 then
              { x with
                total_cost := r.total_cost + cost,
                total_units := r.total_units + units } else x) = x := by
          intro x hx
          rw [if_neg]
          intro hxk
          exact hkey (matchesKey_unique x tn us tl pt ps tn2 us2 tl2 pt2 ps2
            (List.mem_filter.mp hx).2 hxk)
        rw [List.map_congr_left hid]
        simp
    | cons r2 rest3 =>
      rw [hfil] at hone
      simp at hone

/-- Every key owns at most one aggregate row (the UNIQUE constraint of
the schema, which holds inductively when the ledger starts empty). -/
def keyUnique (rows : List AggRow) : Prop :=
  ∀ (tn us tl : String) (pt : PeriodType) (ps : ℤ),
    (rows.filter (matchesKey · tn us tl pt ps)).length ≤ 1

theorem keyUnique_nil : keyUnique [] := by
  intro tn us tl pt ps; simp

/-- The read-then-write upsert preserves key uniqueness. -/
theorem keyUnique_upsertAggregate (rows : List AggRow)
    (tn2 us2 tl2 : String) (pt2 : PeriodType) (ps2 : ℤ) (cost units : ℚ)
    (h : keyUnique rows) :
    keyUnique (upsertAggregate rows tn2 us2 tl2 pt2 ps2 cost units) := by
  unfold upsertAggregate upsertRead
  cases hfil : rows.filter (matchesKey · tn2 us2 tl2 pt2 ps2) with
  | nil =>
    dsimp only [maybeSingle, upsertWrite]
    rw [hfil]
    simp only [List.isEmpty_nil, if_true]
    intro tn us tl pt ps
    rw [List.filter_append]
    by_cases hk : matchesKey (⟨tn2, us2, tl2, pt2, ps2, units, cost⟩ : AggRow)
        tn us tl pt ps = true
    · have hkeys := matchesKey_unique _ tn2 us2 tl2 pt2 ps2 tn us tl pt ps
        (by simp [matchesKey]) hk
      obtain ⟨rfl, rfl, rfl, rfl, rfl⟩ := hkeys
      rw [hfil]
      simp [hk]
    · simp [List.filter_cons, hk, h tn us tl pt ps]
  | cons r rest2 =>
    cases rest2 with
    | nil =>
      dsimp only [maybeSingle, upsertWrite]
      have hq : ∀ x : AggRow, ∀ (tn us tl : String) (pt : PeriodType) (ps : ℤ),
          matchesKey (if matchesKey x tn2 us2 tl2 pt2 ps2 then
              { x with
                total_cost := r.total_cost + cost,
                total_units := r.total_units + units } else x) tn us tl pt ps =
            matchesKey x tn us tl pt ps := by
        intro x tn us tl pt ps
        by_cases hx : matchesKey x tn2 us2 tl2 pt2 ps2 = true
        · rw [if_pos hx]; rfl
        · rw [if_neg hx]
      intro tn us tl pt ps
      rw [filter_map_of_pred _ _ (fun x => hq x tn us tl pt ps), List.length_map]
      exact h tn us tl pt ps
    | cons r2 rest3 =>
      dsimp only [maybeSingle, upsertWrite]
      rw [hfil]
      simpa using h

/-- Effect of recording one usage event on the stored total of any key:
the event's (tenant, user, tool) key gains the event's cost in the period
row whose start is the wall-clock period start, and every other key is
unchanged. -/
theorem aggTotalCost_recordAggs (rows : List AggRow) (c : Clock) (e : UsageEvent)
    (tn us tl : String) (pt : PeriodType) (ps : ℤ) (h : keyUnique rows) :
    aggTotalCost (recordAggs rows c e) tn us tl pt ps =
      aggTotalCost rows tn us tl pt ps +
        if e.tenant_id = tn ∧ e.user_id = us ∧ e.tool_id = tl ∧
            eventPeriodStart c pt = ps
        then e.cost_estimate else 0 := by
  unfold recordAggs updateAggregates
  rw [aggTotalCost_upsertAggregate _ _ _ _ _ _ _ _ _ _ _ _ _
      (keyUnique_upsertAggregate _ _ _ _ _ _ _ _ h _ _ _ _ _),
    aggTotalCost_upsertAggregate _ _ _ _ _ _ _ _ _ _ _ _ _ (h _ _ _ _ _)]
  cases pt <;> simp [eventPeriodStart]

/-- Recording an event preserves key uniqueness. -/
theorem keyUnique_recordAggs (rows : List AggRow) (c : Clock) (e : UsageEvent)
    (h : keyUnique rows) : keyUnique (recordAggs rows c e) := by
  unfold recordAggs updateAggregates
  exact keyUnique_upsertAggregate _ _ _ _ _ _ _ _
    (keyUnique_upsertAggregate _ _ _ _ _ _ _ _ h)

/-- Running the sequential ledger adds, for every key, the sum of the
matching events' costs. -/
theorem runLedger_total (pairs : List (Clock × UsageEvent)) (tn us tl : String)
    (pt : PeriodType) (ps : ℤ) :
    ∀ rows, keyUnique rows →
      aggTotalCost (runLedger pairs rows) tn us tl pt ps =
        aggTotalCost rows tn us tl pt ps +
          (pairs.map fun pr =>
            if pr.2.tenant_id = tn ∧ pr.2.user_id = us ∧ pr.2.tool_id = tl ∧
                eventPeriodStart pr.1 pt = ps
            then pr.2.cost_estimate else 0).sum := by
  induction pairs with
  | nil => intro rows _; simp [runLedger]
  | cons pr rest ih =>
    obtain ⟨c, e⟩ := pr
    intro rows h
    rw [show runLedger ((c, e) :: rest) rows = runLedger rest (recordAggs rows c e)
        from rfl,
      ih _ (keyUnique_recordAggs rows c e h),
      aggTotalCost_recordAggs rows c e tn us tl pt ps h]
    simp only [List.map_cons, List.sum_cons]
    ring

/-- The per-event contribution sum equals the cost sum over the matching
allowed/downgraded events, provided denied events carry cost 0. -/
theorem sum_if_filter (pairs : List (Clock × UsageEvent)) (tn us tl : String)
    (pt : PeriodType) (ps : ℤ)
    (hden : ∀ pr ∈ pairs, pr.2.decision = .denied → pr.2.cost_estimate = 0) :
    (pairs.map fun pr =>
      if pr.2.tenant_id = tn ∧ pr.2.user_id = us ∧ pr.2.tool_id = tl ∧
          eventPeriodStart pr.1 pt = ps
      then pr.2.cost_estimate else 0).sum =
    ((pairs.filter fun pr =>
        pr.2.tenant_id == tn && pr.2.user_id == us && pr.2.tool_id == tl &&
          eventPeriodStart pr.1 pt == ps && !(pr.2.decision == EventDecision.denied)).map
      fun pr => pr.2.cost_estimate).sum := by
  induction pairs with
  | nil => rfl
  | cons pr rest ih =>
    have hden2 : ∀ q ∈ rest, q.2.decision = .denied → q.2.cost_estimate = 0 :=
      fun q hq => hden q (List.mem_cons_of_mem pr hq)
    rw [List.map_cons, List.sum_cons, List.filter_cons]
    by_cases hm : pr.2.tenant_id = tn ∧ pr.2.user_id = us ∧ pr.2.tool_id = tl ∧
        eventPeriodStart pr.1 pt = ps
    · rw [if_pos hm]
      by_cases hd : pr.2.decision = .denied
      · have hb : (pr.2.tenant_id == tn && pr.2.user_id == us && pr.2.tool_id == tl &&
            eventPeriodStart pr.1 pt == ps && !(pr.2.decision == EventDecision.denied))
            = false := by
          simp [hd]
        rw [hb, hden pr (List.mem_cons_self pr rest) hd]
        simp only [Bool.false_eq_true, if_false, zero_add]
        exact ih hden2
      · have hb : (pr.2.tenant_id == tn && pr.2.user_id == us && pr.2.tool_id == tl &&
            eventPeriodStart pr.1 pt == ps && !(pr.2.decision == EventDecision.denied))
            = true := by
          simp [hm.1, hm.2.1, hm.2.2.1, hm.2.2.2, hd]
        rw [hb]
        simp only [if_true, List.map_cons, List.sum_cons]
        rw [ih hden2]
    · rw [if_neg hm]
      have hb : (pr.2.tenant_id == tn && pr.2.user_id == us && pr.2.tool_id == tl &&
          eventPeriodStart pr.1 pt == ps && !(pr.2.decision == EventDecision.denied))
          = false := by
        cases hB : (pr.2.tenant_id == tn && pr.2.user_id == us && pr.2.tool_id == tl &&
            eventPeriodStart pr.1 pt == ps && !(pr.2.decision == EventDecision.denied))
        · rfl
        · exfalso
          simp only [Bool.and_eq_true, beq_iff_eq] at hB
          exact hm ⟨hB.1.1.1.1, hB.1.1.1.2, hB.1.1.2, hB.1.2⟩
      rw [hb]
      simp only [Bool.false_eq_true, if_false, zero_add]
      exact ih hden2

/-! ## C7 -/

/-- C7: starting from an empty aggregates table, after any sequence of
sequentially recorded usage events the stored total_cost of every
(tenant, user, tool, period-type, period-start) key equals the sum of the
costs of the recorded events of that key whose period matches and whose
decision is allowed or downgraded — provided denied events are recorded
with cost 0, as the router does. -/
theorem C7_aggregate_sum (pairs : List (Clock × UsageEvent)) (tn us tl : String)
    (pt : PeriodType) (ps : ℤ)
    (hden : ∀ pr ∈ pairs, pr.2.decision = .denied → pr.2.cost_estimate = 0) :
    aggTotalCost (runLedger pairs []) tn us tl pt ps =
      ((pairs.filter fun pr =>
          pr.2.tenant_id == tn && pr.2.user_id == us && pr.2.tool_id == tl &&
            eventPeriodStart pr.1 pt == ps &&
            !(pr.2.decision == EventDecision.denied)).map
        fun pr => pr.2.cost_estimate).sum := by
  rw [runLedger_total pairs tn us tl pt ps [] keyUnique_nil]
  rw [show aggTotalCost [] tn us tl pt ps = 0 from rfl, zero_add]
  exact sum_if_filter pairs tn us tl pt ps hden

/-- Three identical allowed events of cost 2 on one key. -/
def threeEvents : List (Clock × UsageEvent) :=
  List.replicate 3 (⟨30, 0⟩, ⟨30, "T", "u", "x", 4, 2, .allowed⟩)

/-- C7 witness: the ledger sum theorem at three concrete allowed events
(denied-cost hypothesis discharged by computation). -/
theorem C7_witness :
    (∀ pr ∈ threeEvents, pr.2.decision = .denied → pr.2.cost_estimate = 0) ∧
      aggTotalCost (runLedger threeEvents []) "T" "u" "x" .day 0 =
        ((threeEvents.filter fun pr =>
            pr.2.tenant_id == "T" && pr.2.user_id == "u" && pr.2.tool_id == "x" &&
              eventPeriodStart pr.1 .day == 0 &&
              !(pr.2.decision == EventDecision.denied)).map
          fun pr => pr.2.cost_estimate).sum :=
  ⟨by decide, C7_aggregate_sum threeEvents "T" "u" "x" .day 0 (by decide)⟩

/-! ## Monotonicity of the stored counters -/

/-- One upsert never decreases any stored total (for a non-negative cost
delta). -/
theorem aggTotalCost_upsertAggregate_mono (rows : List AggRow)
    (tn2 us2 tl2 : String) (pt2 : PeriodType) (ps2 : ℤ) (cost units : ℚ)
    (tn us tl : String) (pt : PeriodType) (ps : ℤ) (hc : 0 ≤ cost) :
    aggTotalCost rows tn us tl pt ps ≤
      aggTotalCost (upsertAggregate rows tn2 us2 tl2 pt2 ps2 cost units)
        tn us tl pt ps := by
  unfold upsertAggregate upsertRead
  cases hfil : rows.filter (matchesKey · tn2 us2 tl2 pt2 ps2) with
  | nil =>
    dsimp only [maybeSingle, upsertWrite]
    rw [hfil]
    simp only [List.isEmpty_nil, if_true]
    rw [aggTotalCost_append]
    have h0 : (0 : ℚ) ≤
        if matchesKey (⟨tn2, us2, tl2, pt2, ps2, units, cost⟩ : AggRow) tn us tl pt ps
        then (⟨tn2, us2, tl2, pt2, ps2, units, cost⟩ : AggRow).total_cost else 0 := by
      split
      · exact hc
      · exact le_refl 0
    linarith
  | cons r rest2 =>
    cases rest2 with
    | nil =>
      dsimp only [maybeSingle, upsertWrite]
      have hq : ∀ x : AggRow,
          matchesKey (if matchesKey x tn2 us2 tl2 pt2 ps2 then
              { x with
                total_cost := r.total_cost + cost,
                total_units := r.total_units + units } else x) tn us tl pt ps =
            matchesKey x tn us tl pt ps := by
        intro x
        by_cases hx : matchesKey x tn2 us2 tl2 pt2 ps2 = true
        · rw [if_pos hx]; rfl
        · rw [if_neg hx]
      unfold aggTotalCost
      rw [filter_map_of_pred _ _ hq, List.map_map]
      apply List.sum_le_sum
      intro x hx
      by_cases hxk : matchesKey x tn2 us2 tl2 pt2 ps2 = true
      · have hxr : x = r := by
          have hmem : x ∈ rows.filter (matchesKey · tn2 us2 tl2 pt2 ps2) :=
            List.mem_filter.mpr ⟨(List.mem_filter.mp hx).1, hxk⟩
          rw [hfil] at hmem
          exact List.mem_singleton.mp hmem

        show x.total_cost ≤ (if matchesKey x tn2 us2 tl2 pt2 ps2 then
          { x with
            total_cost := r.total_cost + cost,
            total_units := r.total_units + units } else x).total_cost
        rw [if_pos hxk]
        subst hxr
        simp
        linarith
      · show x.total_cost ≤ (if matchesKey x tn2 us2 tl2 pt2 ps2 then
          { x with
            total_cost := r.total_cost + cost,
            total_units := r.total_units + units } else x).total_cost
        rw [if_neg hxk]
    | cons r2 rest3 =>
      dsimp only [maybeSingle, upsertWrite]
      rw [hfil]
      simp

/-! ## C9 (amended) -/

/-- C9 (amended): the period boundary is computed from the wall clock at
evaluation time, but in the server's local timezone: the daily window
starts at local midnight of the current local day (the instant
`1440·⌊(t+o)/1440⌋ − o`) and the monthly window at local midnight of the
first day of the current local month; and no stored counter is ever
cleared — recording an event never decreases any stored total. -/
theorem C9_amended_thm :
    (∀ t o : ℤ, Clock.periodStart ⟨t, o⟩ .daily = 1440 * ((t + o).ediv 1440) - o) ∧
      (∀ t o : ℤ, Clock.periodStart ⟨t, o⟩ .monthly = localMonthStart t o) ∧
      (∀ (rows : List AggRow) (c : Clock) (e : UsageEvent) (tn us tl : String)
          (pt : PeriodType) (ps : ℤ), 0 ≤ e.cost_estimate →
        aggTotalCost rows tn us tl pt ps ≤
          aggTotalCost (recordAggs rows c e) tn us tl pt ps) := by
  refine ⟨?_, ?_, ?_⟩
  · intro t o
    show t - (t + o) % 1440 = 1440 * ((t + o) / 1440) - o
    omega
  · intro t o
    rfl
  · intro rows c e tn us tl pt ps hc
    unfold recordAggs updateAggregates
    exact le_trans
      (aggTotalCost_upsertAggregate_mono rows _ _ _ _ _ _ _ tn us tl pt ps hc)
      (aggTotalCost_upsertAggregate_mono _ _ _ _ _ _ _ _ tn us tl pt ps hc)

/-- C9 witness: the amended theorem applied at the concrete clock
(instant 30, offset +60) and at one concrete recorded event. -/
theorem C9_witness :
    Clock.periodStart ⟨30, 60⟩ .daily = 1440 * ((30 + 60 : ℤ).ediv 1440) - 60 ∧
      Clock.periodStart ⟨30, 60⟩ .monthly = localMonthStart 30 60 ∧
      aggTotalCost [] "T" "u" "x" .day 0 ≤
        aggTotalCost (recordAggs [] ⟨30, 0⟩ ⟨30, "T", "u", "x", 4, 2, .allowed⟩)
          "T" "u" "x" .day 0 :=
  ⟨C9_amended_thm.1 30 60, C9_amended_thm.2.1 30 60,
    C9_amended_thm.2.2 [] ⟨30, 0⟩ ⟨30, "T", "u", "x", 4, 2, .allowed⟩
      "T" "u" "x" .day 0 (by norm_num)⟩

end FluxAI
